import Mathlib

/-!
Verification of the `DushyRedisClient` connection engine
(`dushy_redis_lib.py`): the background stream reader (line framer,
line classifier, subscription dispatcher, response correlator), the
command path, and the connection lifecycle.

The embedding is shallow: every Python function of the engine is
translated to a Lean function over explicit state.  External effects
are modelled explicitly:

* `socket.recv` chunks are lists of byte values fed to the reader;
* `json.loads` (Python stdlib, external to this repository) is a
  parameter `jdec : String → Option PyVal`, `none` modelling a raised
  `json.JSONDecodeError`;
* the Python values the engine manipulates are the inductive `PyVal`;
* a subscriber callback is opaque code: the engine only observes
  whether invoking it raises, so a callback is modelled by an identity
  and a `raises` flag, and dispatch returns the trace of invocations
  (callback, argument) actually performed.
-/

set_option maxRecDepth 4000

namespace DushyRedis

/-- Python values as the engine sees them: JSON-decoded data
(`json.loads` yields dicts, lists, strings, ints, bools, None) plus
`bytes` objects produced by the `bytes(content)` conversion. -/
inductive PyVal where
  | vInt (n : Int)
  | vStr (s : String)
  | vBool (b : Bool)
  | vNone
  | vList (xs : List PyVal)
  | vDict (entries : List (String × PyVal))
  | vBytes (bs : List Nat)
  deriving Repr

/-- A subscriber callback, identified by `id`; `raises` records whether
invoking it on the dispatched message raises an exception (the only
behaviour of a callback the reader loop can observe). -/
structure CB where
  id : Nat
  raises : Bool
  deriving Repr, DecidableEq

/-- Engine state shared between the reader thread and callers:
`subs` is the `self.subscriptions` dict (channel → callback list,
insertion-ordered), `queue` is the `self.response_queue` FIFO. -/
structure EngineState where
  subs : List (String × List CB)
  queue : List String

/-- Python `self.subscriptions[channel]` / `channel in self.subscriptions`:
dict lookup on the subscription table. -/
def lookupSubs (subs : List (String × List CB)) (ch : String) : Option (List CB) :=
  match subs with
  | [] => none
  | (c, l) :: rest => if c = ch then some l else lookupSubs rest ch

/-- Python `message['Type']` / `message['Content']`: dict item access,
`none` modelling a raised `KeyError`/`TypeError`. -/
def dictGet (v : PyVal) (key : String) : Option PyVal :=
  match v with
  | .vDict entries =>
    match entries with
    | [] => none
    | (k, x) :: rest => if k = key then some x else dictGet (.vDict rest) key
  | _ => none

/-- Python `bytes(content)`: a list of ints in `[0, 256)` becomes a byte
string, a bool is an int (`bytes(True) = b'\x00'`), a nonnegative int `n`
gives `n` zero bytes, `bytes` objects are copied unchanged; anything else
raises (`none`). -/
def pyBytes (v : PyVal) : Option PyVal :=
  match v with
  | .vBytes bs => some (.vBytes bs)
  | .vList xs =>
    match bytesOfList xs with
    | some bs => some (.vBytes bs)
    | none => none
  | .vInt n => if 0 ≤ n then some (.vBytes (List.replicate n.toNat 0)) else none
  | .vBool b => some (.vBytes (List.replicate (if b then 1 else 0) 0))
  | _ => none
where
  /-- Elementwise check that a Python list is a list of byte values. -/
  bytesOfList : List PyVal → Option (List Nat)
  | [] => some []
  | .vInt n :: rest =>
    if 0 ≤ n ∧ n < 256 then
      match bytesOfList rest with
      | some bs => some (n.toNat :: bs)
      | none => none
    else none
  | .vBool b :: rest =>
    match bytesOfList rest with
    | some bs => some ((if b then 1 else 0) :: bs)
    | none => none
  | _ :: _ => none

/-- Python `msg_type == 2`: the binary-message discriminant test (a
Python int equal to 2; `True == 2` is false). -/
def isType2 (v : PyVal) : Bool :=
  match v with
  | .vInt n => n = 2
  | _ => false

/-- The callback loop of `_read_responses` (lines 73–76):

```
for callback in self.subscriptions[channel]:
    if msg_type == 2:  # BinaryMessage
        content = bytes(content)
    callback(content)
```

`content` is loop-carried, so the `bytes` conversion is re-applied on
every iteration.  Returns the invocations performed, in order, each with
the argument passed.  A raised exception — from `bytes(content)` or from
the callback itself — aborts the loop (it is caught by the `except` of
the enclosing `try`, so nothing propagates further). -/
def runCallbacks (msgType : PyVal) (content : PyVal) : List CB → List (CB × PyVal)
  | [] => []
  | cb :: rest =>
    if isType2 msgType then
      match pyBytes content with
      | none => []
      | some c' =>
        if cb.raises then [(cb, c')]
        else (cb, c') :: runCallbacks msgType c' rest
    else
      if cb.raises then [(cb, content)]
      else (cb, content) :: runCallbacks msgType content rest

/-- Character-level check that `ps` is an initial segment of `cs`. -/
def charsStartWith : List Char → List Char → Bool
  | [], _ => true
  | _ :: _, [] => false
  | p :: ps, c :: cs => if p = c then charsStartWith ps cs else false

/-- Python `line.startswith(pre)`: literal, case-sensitive match at the
beginning of the string. -/
def pyStartsWith (s pre : String) : Bool :=
  charsStartWith pre.toList s.toList

/-- The characters Python `str.strip()` removes (ASCII whitespace:
space, tab, newline, carriage return, vertical tab, form feed). -/
def isPySpace (c : Char) : Bool :=
  c = ' ' || c = '\t' || c = '\n' || c = '\r' || c.toNat = 11 || c.toNat = 12

/-- Python `line.strip()`: remove leading and trailing whitespace. -/
def pyStrip (s : String) : String :=
  String.mk (((s.toList.dropWhile isPySpace).reverse.dropWhile isPySpace).reverse)

/-- Stripping only trailing whitespace (what the specification claims
the engine does to response lines). -/
def pyStripRight (s : String) : String :=
  String.mk ((s.toList.reverse.dropWhile isPySpace).reverse)

/-- Python `line.split(' ', 2)` unpacked into exactly three parts
(`_, channel, json_str = line.split(' ', 2)`): split at the first two
single-space characters; `none` models the `ValueError` raised when the
line holds fewer than two spaces. -/
def split2 (line : String) : Option (String × String × String) :=
  match splitFirst line.toList with
  | none => none
  | some (p1, rest) =>
    match splitFirst rest with
    | none => none
    | some (p2, p3) => some (String.mk p1, String.mk p2, String.mk p3)
where
  /-- Split a character list at its first space. -/
  splitFirst : List Char → Option (List Char × List Char)
  | [] => none
  | c :: cs =>
    if c = ' ' then some ([], cs)
    else
      match splitFirst cs with
      | none => none
      | some (a, b) => some (c :: a, b)

/-- One framed (nonempty) line through the classifier and its sink
(`_read_responses` lines 64–80).  `jdec` models `json.loads`.  Returns
the new engine state and the callback invocations performed.  Every
exception inside the push branch (unpacking `split`, `json.loads`,
missing dict keys, `bytes()`, a raising callback) is caught by the
`except` at line 77: the line is dropped, state is unchanged, and the
reader continues.  A non-push line is stripped and enqueued. -/
def handleLine (jdec : String → Option PyVal) (st : EngineState) (line : String) :
    EngineState × List (CB × PyVal) :=
  if pyStartsWith line "Message" then
    match split2 line with
    | none => (st, [])
    | some (_, channel, jsonStr) =>
      match jdec jsonStr with
      | none => (st, [])
      | some message =>
        match lookupSubs st.subs channel with
        | none => (st, [])
        | some cbs =>
          match dictGet message "Content", dictGet message "Type" with
          | some content, some msgType => (st, runCallbacks msgType content cbs)
          | _, _ => (st, [])
  else
    ({ st with queue := st.queue ++ [pyStrip line] }, [])

/-- One line out of the framing loop (`while '\n' in buffer`, lines
59–62): an empty line is skipped (`if not line: continue`) before
classification. -/
def processFramedLine (jdec : String → Option PyVal) (st : EngineState) (line : String) :
    EngineState × List (CB × PyVal) :=
  if line = "" then (st, []) else handleLine jdec st line

/-- The reader's per-line loop over a sequence of framed lines:
processing each line in order, accumulating state and invocations. -/
def readerLines (jdec : String → Option PyVal) (st : EngineState) :
    List String → EngineState × List (CB × PyVal)
  | [] => (st, [])
  | line :: rest =>
    let p := processFramedLine jdec st line
    let q := readerLines jdec p.1 rest
    (q.1, p.2 ++ q.2)

/-! ## Line framer (`_read_responses` lines 50–62)

The reader does `self.socket.recv(4096).decode('utf-8')` on every
chunk: each chunk of bytes is UTF-8-decoded **independently**, so a
multi-byte character split across two `recv` results raises
`UnicodeDecodeError`, caught at line 82, which breaks the loop.  The
decoded text is appended to a string buffer and split at `'\n'`.  The
byte-level model works with `List Nat` (byte values) and decodes to
`List Nat` (Unicode code points); a framed line is a `List Nat` of code
points. -/

/-- Whether a byte is a UTF-8 continuation byte (`10xxxxxx`). -/
def contByte (b : Nat) : Bool := 128 ≤ b && b < 192

/-- Decode one UTF-8 code point whose leading byte is `b` and whose
following bytes are at the front of `rest`: returns the code point and
the unconsumed bytes, `none` on malformed input (truncated sequence,
bad leading/continuation byte, overlong form, surrogate, or
out-of-range code point). -/
def decode1 (b : Nat) (rest : List Nat) : Option (Nat × List Nat) :=
  if b < 128 then some (b, rest)
  else if b < 192 then none
  else if b < 224 then
    match rest with
    | c1 :: rest1 =>
      if contByte c1 then
        let cp := (b - 192) * 64 + (c1 - 128)
        if 128 ≤ cp then some (cp, rest1) else none
      else none
    | [] => none
  else if b < 240 then
    match rest with
    | c1 :: c2 :: rest2 =>
      if contByte c1 ∧ contByte c2 then
        let cp := (b - 224) * 4096 + (c1 - 128) * 64 + (c2 - 128)
        if 2048 ≤ cp ∧ ¬(55296 ≤ cp ∧ cp < 57344) then some (cp, rest2) else none
      else none
    | _ => none
  else if b < 248 then
    match rest with
    | c1 :: c2 :: c3 :: rest3 =>
      if contByte c1 ∧ contByte c2 ∧ contByte c3 then
        let cp := (b - 240) * 262144 + (c1 - 128) * 4096 + (c2 - 128) * 64 + (c3 - 128)
        if 65536 ≤ cp ∧ cp ≤ 1114111 then some (cp, rest3) else none
      else none
    | _ => none
  else none

/-- Decode a whole byte list to code points, consuming one code point
per step; `fuel` only bounds the recursion and any `fuel ≥ length`
behaves identically (`decode1` always consumes the leading byte). -/
def utf8DecodeAux (fuel : Nat) (l : List Nat) : Option (List Nat) :=
  match l, fuel with
  | [], _ => some []
  | _ :: _, 0 => none
  | b :: rest, fuel' + 1 =>
    match decode1 b rest with
    | none => none
    | some (c, r) =>
      match utf8DecodeAux fuel' r with
      | none => none
      | some cs => some (c :: cs)

/-- Python `bytes.decode('utf-8')` (strict): decode a whole byte list to
its code points, `none` modelling a raised `UnicodeDecodeError`. -/
def utf8Decode (l : List Nat) : Option (List Nat) :=
  utf8DecodeAux l.length l

/-- Python `buffer.split('\n', 1)` iterated (`while '\n' in buffer`):
split a code-point sequence into the complete lines (segments before
each newline, in order) and the trailing remainder that stays in the
buffer. -/
def splitAll : List Nat → List (List Nat) × List Nat
  | [] => ([], [])
  | c :: cs =>
    let p := splitAll cs
    if c = 10 then ([] :: p.1, p.2)
    else
      match p.1 with
      | [] => ([], c :: p.2)
      | l :: ls => ((c :: l) :: ls, p.2)

/-- The reader loop at byte level over a list of `recv` chunks: each
chunk is decoded on its own (`none` → `UnicodeDecodeError` → `except`
at line 82 → `break`), an empty chunk is end-of-stream (`if not data:
break`), decoded text is buffered and split into lines, and empty lines
are skipped (`if not line: continue`).  Returns the framed lines
delivered downstream, in order. -/
def readerRun (buf : List Nat) : List (List Nat) → List (List Nat)
  | [] => []
  | chunk :: rest =>
    if chunk = [] then []
    else
      match utf8Decode chunk with
      | none => []
      | some data =>
        let p := splitAll (buf ++ data)
        p.1.filter (fun l => l ≠ []) ++ readerRun p.2 rest

/-- Frame a whole sequence of `recv` chunks starting from an empty
buffer. -/
def readerFrames (chunks : List (List Nat)) : List (List Nat) :=
  readerRun [] chunks

/-! ## Response correlator (`queue.Queue` + `_send_command` line 89)

`self.response_queue` is an unbounded FIFO: the reader thread `put`s
each stripped response line, a caller's `_send_command` `put`s nothing
and `get`s one line, blocking while the queue is empty. -/

/-- An event on the response queue: the reader enqueues a line, or a
caller's `response_queue.get()` dequeues one. -/
inductive QEvent where
  | put (line : String)
  | get

/-- Run a sequence of queue events against a FIFO queue (front of the
list is the head).  Returns the lines the `get`s delivered, in order;
`none` if some `get` finds the queue empty — in the real client that
`get` blocks, so a schedule in which it never gets a matching `put`
blocks forever. -/
def runQueue (q : List String) : List QEvent → Option (List String)
  | [] => some []
  | .put s :: es => runQueue (q ++ [s]) es
  | .get :: es =>
    match q with
    | [] => none
    | x :: q' =>
      match runQueue q' es with
      | none => none
      | some outs => some (x :: outs)

/-- The strictly serialized usage pattern: for each command, the server
answers with `serverResp cmd`, the reader enqueues that line, and the
caller's pending `get` consumes it before the next command is sent. -/
def seqSchedule (serverResp : String → String) (cmds : List String) : List QEvent :=
  match cmds with
  | [] => []
  | c :: rest => .put (serverResp c) :: .get :: seqSchedule serverResp rest

/-! ## Connection lifecycle (`__init__`, `_connect`, `close`,
`_send_command`) -/

/-- The observable connection phase: the socket exists from `__init__`
but is unconnected until `_connect`, and `close()` closes it.  The
lifecycle is linear; there is no reconnect. -/
inductive ConnPhase where
  | disconnected
  | connected
  | closed
  deriving Repr, DecidableEq

/-- The Python exception kinds relevant to the command path.  The
library defines no exception classes of its own; `osError` is the
builtin `OSError` raised by socket operations. -/
inductive PyErr where
  | osError
  | notConnectedError
  deriving Repr, DecidableEq

/-- Client state as the lifecycle operations see it. -/
structure ClientState where
  phase : ConnPhase
  running : Bool
  responseQueue : List String

/-- The `close` method (lines 185–188): `self.running = False;
self.socket.close()`.  Python's `socket.close()` is a no-op on an
already-closed socket, so `close` never raises: it is modelled as a
total function returning `Except.ok`.  The response queue is not
touched and no sentinel is enqueued. -/
def close (s : ClientState) : Except PyErr ClientState :=
  .ok { s with phase := .closed, running := false }

/-- What a caller blocked in `response_queue.get()` experiences. -/
inductive AwaitOutcome where
  | delivered (line : String)
  | failedClosed
  | blocked
  deriving Repr, DecidableEq

/-- A pending `response_queue.get()`: it completes with the head line if
one is (or becomes) available; with an empty queue it blocks — nothing
in the client ever delivers a connection-closed failure to it. -/
def awaitOutcome (s : ClientState) : AwaitOutcome :=
  match s.responseQueue with
  | line :: _ => .delivered line
  | [] => .blocked

/-- Python `self.socket.send(...)` by socket state: on an unconnected or
closed socket the OS rejects the call and Python raises `OSError`
(`ENOTCONN` resp. `EBADF`); `_send_command` performs no state check of
its own and the library defines no NotConnected error. -/
def socketSend (phase : ConnPhase) : Except PyErr Unit :=
  match phase with
  | .connected => .ok ()
  | .disconnected => .error .osError
  | .closed => .error .osError

/-- The `_send_command` method (lines 86–89): write `command + "\n"` to
the socket, then block on `response_queue.get()`.  Result: the error
raised by the send, or (`.ok`) the head of the response queue — `none`
when the queue is empty and the caller blocks. -/
def sendCommand (s : ClientState) (command : String) : Except PyErr (Option String) :=
  match socketSend s.phase with
  | .error e => .error e
  | .ok _ => .ok s.responseQueue.head?

/-! ## `subscribe` (lines 143–155) and `set` (lines 91–96) -/

/-- Lines 151–153: create the channel entry if absent, then append the
callback to it.  This happens before the `SUBSCRIBE` command is sent. -/
def registerCallback (subs : List (String × List CB)) (ch : String) (cb : CB) :
    List (String × List CB) :=
  match subs with
  | [] => [(ch, [cb])]
  | (c, l) :: rest =>
    if c = ch then (c, l ++ [cb]) :: rest
    else (c, l) :: registerCallback rest ch cb

/-- The `subscribe` method: register the callback, then send
`SUBSCRIBE <channel>` and compare the response to `OK`.  `resp` is the
response line the correlator delivers.  Returns the updated
subscription table, the command line sent, and the boolean result; the
registration is unconditional — no branch removes it. -/
def subscribe (subs : List (String × List CB)) (ch : String) (cb : CB) (resp : String) :
    List (String × List CB) × String × Bool :=
  let subs1 := registerCallback subs ch cb
  (subs1, "SUBSCRIBE " ++ ch, resp == "OK")

/-- Python `str(value)` for the value types a caller can pass to `set`:
strings render as themselves, ints and bools as their Python reprs;
container and bytes reprs are abbreviated structurally (their exact
text never matters to the claims — only that non-strings are rendered
unquoted by the f-string). -/
def pyStrOf : PyVal → String
  | .vStr s => s
  | .vInt n => toString n
  | .vBool b => if b then "True" else "False"
  | .vNone => "None"
  | .vList xs => "[" ++ String.intercalate ", " (xs.map pyStrOfRepr) ++ "]"
  | .vDict _ => "[dict]"
  | .vBytes _ => "[bytes]"
where
  /-- Inside `str(list)`, elements render with `repr`: strings quoted. -/
  pyStrOfRepr : PyVal → String
  | .vStr s => "'" ++ s ++ "'"
  | .vInt n => toString n
  | .vBool b => if b then "True" else "False"
  | .vNone => "None"
  | .vList _ => "[list]"
  | .vDict _ => "[dict]"
  | .vBytes _ => "[bytes]"

/-- Whether a Python value is a `str` (`isinstance(value, str)`). -/
def isStr : PyVal → Bool
  | .vStr _ => true
  | _ => false

/-- The `set` method (lines 91–96): a string value is first replaced by
`f'"{value}"'`, then the f-string `f"SET {key} {value}"` renders the
value with `str()`; the command is sent and the result is
`response == "OK"`.  `resp` is the response line the correlator
delivers; returns the command line transmitted and the boolean
result. -/
def setOp (key : String) (value : PyVal) (resp : String) : String × Bool :=
  let rendered :=
    match value with
    | .vStr s => "\"" ++ s ++ "\""
    | v => pyStrOf v
  ("SET " ++ key ++ " " ++ rendered, resp == "OK")

/-! ## Helper lemmas about the framer -/

theorem splitAll_fst_nil {l : List Nat} (h : (splitAll l).1 = []) : (splitAll l).2 = l := by
  induction l with
  | nil => rfl
  | cons c cs ih =>
    simp only [splitAll] at h ⊢
    by_cases hc : c = 10
    · simp [hc] at h
    · simp only [if_neg hc] at h ⊢
      cases h1 : (splitAll cs).1 with
      | nil => simp [h1, ih h1]
      | cons l ls => simp [h1] at h

theorem splitAll_no_nl {l : List Nat} (h : 10 ∉ l) : splitAll l = ([], l) := by
  induction l with
  | nil => rfl
  | cons c cs ih =>
    simp only [List.mem_cons, not_or] at h
    have hc : ¬c = 10 := fun hh => h.1 hh.symm
    simp [splitAll, if_neg hc, ih h.2]

theorem splitAll_snd_no_nl (l : List Nat) : 10 ∉ (splitAll l).2 := by
  induction l with
  | nil => simp [splitAll]
  | cons c cs ih =>
    simp only [splitAll]
    by_cases hc : c = 10
    · simpa [hc] using ih
    · simp only [if_neg hc]
      cases h1 : (splitAll cs).1 with
      | nil =>
        simp only [h1]
        intro hmem
        rcases List.mem_cons.mp hmem with h10 | h10
        · exact hc h10.symm
        · exact ih h10
      | cons l ls => simpa [h1] using ih

theorem splitAll_append (x y : List Nat) :
    splitAll (x ++ y) =
      ((splitAll x).1 ++ (splitAll ((splitAll x).2 ++ y)).1,
        (splitAll ((splitAll x).2 ++ y)).2) := by
  induction x with
  | nil => simp [splitAll]
  | cons c cs ih =>
    by_cases hc : c = 10
    · subst hc
      simp [splitAll, ih]
    · cases h1 : (splitAll cs).1 with
      | nil =>
        have h2 : (splitAll cs).2 = cs := splitAll_fst_nil h1
        simp only [List.cons_append, splitAll, if_neg hc, h1, h2]
        cases hB : (splitAll (cs ++ y)).1 <;> simp [hB]
      | cons l ls =>
        simp only [List.cons_append, splitAll, if_neg hc, h1, List.append_eq]
        rw [ih, h1]
        simp [List.cons_append]

theorem decode1_consumed {b : Nat} {rest : List Nat} {c : Nat} {r : List Nat}
    (h : decode1 b rest = some (c, r)) : r.length ≤ rest.length := by
  simp only [decode1] at h
  split at h
  · cases h; simp
  · split at h
    · cases h
    · split at h
      · match rest with
        | [] => cases h
        | c1 :: rest1 =>
          simp only at h
          split at h
          · split at h
            · cases h; simp
            · cases h
          · cases h
      · split at h
        · match rest with
          | [] => cases h
          | [c1] => cases h
          | c1 :: c2 :: rest2 =>
            simp only at h
            split at h
            · split at h
              · cases h; simp; omega
              · cases h
            · cases h
        · split at h
          · match rest with
            | [] => cases h
            | [c1] => cases h
            | [c1, c2] => cases h
            | c1 :: c2 :: c3 :: rest3 =>
              simp only at h
              split at h
              · split at h
                · cases h; simp; omega
                · cases h
              · cases h
          · cases h

/-- When more bytes are appended after a decodable code point,
`decode1` still consumes the same code point and leaves the extra
bytes unconsumed. -/
theorem decode1_append {b : Nat} {rest : List Nat} {c : Nat} {r : List Nat}
    (h : decode1 b rest = some (c, r)) (tail : List Nat) :
    decode1 b (rest ++ tail) = some (c, r ++ tail) := by
  by_cases h1 : b < 128
  · simp only [decode1, if_pos h1, Option.some.injEq, Prod.mk.injEq] at h ⊢
    exact ⟨h.1, by rw [h.2]⟩
  · by_cases h2 : b < 192
    · simp only [decode1, if_neg h1, if_pos h2] at h
      exact Option.noConfusion h
    · by_cases h3 : b < 224
      · cases rest with
        | nil =>
          simp only [decode1, if_neg h1, if_neg h2, if_pos h3] at h
          exact Option.noConfusion h
        | cons c1 rest1 =>
          simp only [decode1, if_neg h1, if_neg h2, if_pos h3, List.cons_append] at h ⊢
          by_cases hc : contByte c1 = true
          · rw [if_pos hc] at h ⊢
            by_cases hcp : 128 ≤ (b - 192) * 64 + (c1 - 128)
            · rw [if_pos hcp] at h ⊢
              simp only [Option.some.injEq, Prod.mk.injEq] at h ⊢
              exact ⟨h.1, by rw [h.2]⟩
            · rw [if_neg hcp] at h
              simp at h
          · rw [if_neg hc] at h
            simp at h
      · by_cases h4 : b < 240
        · match rest with
          | [] =>
            simp only [decode1, if_neg h1, if_neg h2, if_neg h3, if_pos h4] at h
            exact Option.noConfusion h
          | [c1] =>
            simp only [decode1, if_neg h1, if_neg h2, if_neg h3, if_pos h4] at h
            exact Option.noConfusion h
          | c1 :: c2 :: rest2 =>
            simp only [decode1, if_neg h1, if_neg h2, if_neg h3, if_pos h4,
              List.cons_append] at h ⊢
            by_cases hc : contByte c1 = true ∧ contByte c2 = true
            · rw [if_pos hc] at h ⊢
              by_cases hcp : 2048 ≤ (b - 224) * 4096 + (c1 - 128) * 64 + (c2 - 128) ∧
                  ¬(55296 ≤ (b - 224) * 4096 + (c1 - 128) * 64 + (c2 - 128) ∧
                    (b - 224) * 4096 + (c1 - 128) * 64 + (c2 - 128) < 57344)
              · rw [if_pos hcp] at h ⊢
                simp only [Option.some.injEq, Prod.mk.injEq] at h ⊢
                exact ⟨h.1, by rw [h.2]⟩
              · rw [if_neg hcp] at h
                simp at h
            · rw [if_neg hc] at h
              simp at h
        · by_cases h5 : b < 248
          · match rest with
            | [] =>
              simp only [decode1, if_neg h1, if_neg h2, if_neg h3, if_neg h4, if_pos h5] at h
              exact Option.noConfusion h
            | [c1] =>
              simp only [decode1, if_neg h1, if_neg h2, if_neg h3, if_neg h4, if_pos h5] at h
              exact Option.noConfusion h
            | [c1, c2] =>
              simp only [decode1, if_neg h1, if_neg h2, if_neg h3, if_neg h4, if_pos h5] at h
              exact Option.noConfusion h
            | c1 :: c2 :: c3 :: rest3 =>
              simp only [decode1, if_neg h1, if_neg h2, if_neg h3, if_neg h4, if_pos h5,
                List.cons_append] at h ⊢
              by_cases hc : contByte c1 = true ∧ contByte c2 = true ∧ contByte c3 = true
              · rw [if_pos hc] at h ⊢
                by_cases hcp : 65536 ≤ (b - 240) * 262144 + (c1 - 128) * 4096 +
                      (c2 - 128) * 64 + (c3 - 128) ∧
                    (b - 240) * 262144 + (c1 - 128) * 4096 + (c2 - 128) * 64 +
                      (c3 - 128) ≤ 1114111
                · rw [if_pos hcp] at h ⊢
                  simp only [Option.some.injEq, Prod.mk.injEq] at h ⊢
                  exact ⟨h.1, by rw [h.2]⟩
                · rw [if_neg hcp] at h
                  simp at h
              · rw [if_neg hc] at h
                simp at h
          · simp only [decode1, if_neg h1, if_neg h2, if_neg h3, if_neg h4, if_neg h5] at h
            exact Option.noConfusion h

/-- The decode fuel is irrelevant once it reaches the list length. -/
theorem utf8DecodeAux_fuel : ∀ (n m : Nat) (l : List Nat),
    l.length ≤ n → l.length ≤ m → utf8DecodeAux n l = utf8DecodeAux m l := by
  intro n
  induction n with
  | zero =>
    intro m l hn _
    have hl : l = [] := List.length_eq_zero.mp (Nat.le_zero.mp hn)
    subst hl
    simp only [utf8DecodeAux]
  | succ n ih =>
    intro m l hn hm
    match l with
    | [] => simp only [utf8DecodeAux]
    | b :: rest =>
      match m with
      | 0 => simp at hm
      | m' + 1 =>
        simp only [utf8DecodeAux]
        cases hd : decode1 b rest with
        | none => rfl
        | some cr =>
          obtain ⟨c, r⟩ := cr
          dsimp only
          have hr := decode1_consumed hd
          simp only [List.length_cons] at hn hm
          rw [ih m' r (by omega) (by omega)]

theorem utf8DecodeAux_append : ∀ (n : Nat) (a x b : List Nat) (m : Nat),
    a.length ≤ n → (a ++ b).length ≤ m → utf8DecodeAux n a = some x →
    utf8DecodeAux m (a ++ b) = Option.map (fun y => x ++ y) (utf8Decode b) := by
  intro n
  induction n with
  | zero =>
    intro a x b m hn hm h
    have ha : a = [] := List.length_eq_zero.mp (Nat.le_zero.mp hn)
    subst ha
    have hx : x = [] := by simpa [utf8DecodeAux] using h.symm
    subst hx
    have hfb : utf8DecodeAux m b = utf8Decode b := by
      unfold utf8Decode
      exact utf8DecodeAux_fuel m b.length b (by simpa using hm) (Nat.le_refl _)
    simp only [List.nil_append, hfb]
    cases utf8Decode b <;> simp
  | succ n ih =>
    intro a x b m hn hm h
    match a with
    | [] =>
      have hx : x = [] := by simpa [utf8DecodeAux] using h.symm
      subst hx
      have hfb : utf8DecodeAux m b = utf8Decode b := by
        unfold utf8Decode
        exact utf8DecodeAux_fuel m b.length b (by simpa using hm) (Nat.le_refl _)
      simp only [List.nil_append, hfb]
      cases utf8Decode b <;> simp
    | a0 :: rest =>
      simp only [utf8DecodeAux] at h
      cases hd : decode1 a0 rest with
      | none => rw [hd] at h; simp at h
      | some cr =>
        obtain ⟨c, r⟩ := cr
        rw [hd] at h
        dsimp only at h
        cases hr : utf8DecodeAux n r with
        | none => rw [hr] at h; simp at h
        | some cs =>
          rw [hr] at h
          dsimp only at h
          have hx : x = c :: cs := by simpa using h.symm
          subst hx
          match m with
          | 0 => simp at hm
          | m' + 1 =>
            have hcons := decode1_consumed hd
            simp only [List.length_cons, List.length_append] at hn hm
            simp only [List.cons_append, utf8DecodeAux, List.append_eq]
            rw [decode1_append hd b]
            dsimp only
            rw [ih r cs b m' (by omega) (by simp only [List.length_append]; omega) hr]
            cases utf8Decode b <;> simp

/-- Decoding distributes over concatenation when the left part is
itself valid UTF-8: Python decoding of the concatenation agrees with
decoding the two parts separately. -/
theorem utf8Decode_append (a b x : List Nat) (h : utf8Decode a = some x) :
    utf8Decode (a ++ b) = Option.map (fun y => x ++ y) (utf8Decode b) := by
  exact utf8DecodeAux_append a.length a x b (a ++ b).length (Nat.le_refl _)
    (Nat.le_refl _) h

theorem utf8Decode_flatten : ∀ (chunks : List (List Nat)),
    (∀ c ∈ chunks, ∃ d, utf8Decode c = some d) →
    ∃ d, utf8Decode chunks.flatten = some d := by
  intro chunks
  induction chunks with
  | nil => intro _; exact ⟨[], rfl⟩
  | cons c rest ih =>
    intro h
    obtain ⟨d, hd⟩ := h c (by simp)
    obtain ⟨ds, hds⟩ := ih (fun x hx => h x (by simp [hx]))
    refine ⟨d ++ ds, ?_⟩
    rw [List.flatten_cons, utf8Decode_append c rest.flatten d hd, hds]
    rfl

/-- The reader loop on nonempty, individually-decodable chunks frames
exactly the nonempty newline-separated segments of the concatenated
decoded text (relative to the pending buffer). -/
theorem readerRun_valid : ∀ (chunks : List (List Nat)) (buf dAll : List Nat),
    10 ∉ buf →
    (∀ c ∈ chunks, c ≠ [] ∧ ∃ d, utf8Decode c = some d) →
    utf8Decode chunks.flatten = some dAll →
    readerRun buf chunks = (splitAll (buf ++ dAll)).1.filter (fun l => l ≠ []) := by
  intro chunks
  induction chunks with
  | nil =>
    intro buf dAll hbuf _ hd
    rw [List.flatten_nil, show utf8Decode ([] : List Nat) = some [] from rfl] at hd
    injection hd with hd
    subst hd
    simp [readerRun, splitAll_no_nl hbuf]
  | cons c rest ih =>
    intro buf dAll hbuf hval hd
    obtain ⟨hne, hex⟩ := hval c (by simp)
    obtain ⟨d, hdc⟩ := hex
    obtain ⟨dr, hdr⟩ := utf8Decode_flatten rest (fun x hx => (hval x (by simp [hx])).2)
    have hsplit : utf8Decode ((c :: rest).flatten) = some (d ++ dr) := by
      rw [List.flatten_cons, utf8Decode_append c rest.flatten d hdc, hdr]
      rfl
    have hda : dAll = d ++ dr := by
      rw [hsplit] at hd
      simpa using hd.symm
    subst hda
    simp only [readerRun, if_neg hne, hdc]
    rw [ih (splitAll (buf ++ d)).2 dr (splitAll_snd_no_nl _)
      (fun x hx => hval x (by simp [hx])) hdr]
    rw [← List.append_assoc, splitAll_append (buf ++ d) dr]
    simp [List.filter_append]

/-! ## Helper lemmas about dispatch and engine state -/

/-- Whatever a framed line holds, the push branch never changes the
engine state; a non-push line only appends its stripped text to the
response queue. -/
theorem handleLine_state (jdec : String → Option PyVal) (st : EngineState) (line : String) :
    (handleLine jdec st line).1 =
      if pyStartsWith line "Message" then st
      else { st with queue := st.queue ++ [pyStrip line] } := by
  unfold handleLine
  split
  · repeat' split
    all_goals rfl
  · rfl

theorem runCallbacks_noRaise_plain (t c : PyVal) (ht : isType2 t = false)
    (cbs : List CB) (h : ∀ cb ∈ cbs, cb.raises = false) :
    runCallbacks t c cbs = cbs.map (fun cb => (cb, c)) := by
  induction cbs with
  | nil => rfl
  | cons cb rest ih =>
    have hcb : cb.raises = false := h cb (by simp)
    simp [runCallbacks, ht, hcb, ih (fun x hx => h x (by simp [hx]))]

theorem runCallbacks_type2_fix (t c' : PyVal) (ht : isType2 t = true)
    (hfix : pyBytes c' = some c') :
    ∀ (cbs : List CB) (c : PyVal), pyBytes c = some c' →
    (∀ cb ∈ cbs, cb.raises = false) →
    runCallbacks t c cbs = cbs.map (fun cb => (cb, c')) := by
  intro cbs
  induction cbs with
  | nil => intro c _ _; rfl
  | cons cb rest ih =>
    intro c hc h
    have hcb : cb.raises = false := h cb (by simp)
    simp only [runCallbacks, ht, if_pos rfl, hc, hcb, List.map_cons]
    simp only [Bool.false_eq_true, if_false, if_true]
    rw [ih c' hfix (fun x hx => h x (by simp [hx]))]

theorem bytesOfList_map (bs : List Nat) (h : ∀ x ∈ bs, x < 256) :
    pyBytes.bytesOfList (bs.map (fun (n : Nat) => PyVal.vInt (n : Int))) = some bs := by
  induction bs with
  | nil => rfl
  | cons x rest ih =>
    have hx : x < 256 := h x (by simp)
    simp only [List.map_cons, pyBytes.bytesOfList]
    rw [if_pos ⟨Int.natCast_nonneg x, by exact_mod_cast hx⟩]
    rw [ih (fun y hy => h y (by simp [hy]))]
    simp

/-- Python `bytes` of a JSON array of byte integers is the byte
sequence itself. -/
theorem pyBytes_byteList (bs : List Nat) (h : ∀ x ∈ bs, x < 256) :
    pyBytes (.vList (bs.map (fun (n : Nat) => PyVal.vInt (n : Int)))) = some (.vBytes bs) := by
  simp [pyBytes, bytesOfList_map bs h]

/-- Looking up a channel after registering a callback yields the
previous list with the callback appended (the entry is created when
absent). -/
theorem lookup_registerCallback (subs : List (String × List CB)) (ch : String) (cb : CB) :
    lookupSubs (registerCallback subs ch cb) ch =
      some ((lookupSubs subs ch).getD [] ++ [cb]) := by
  induction subs with
  | nil => simp [registerCallback, lookupSubs]
  | cons entry rest ih =>
    obtain ⟨c, l⟩ := entry
    by_cases hc : c = ch
    · subst hc
      simp [registerCallback, lookupSubs]
    · simp [registerCallback, lookupSubs, hc, ih]

/-! ## Claim theorems -/

/-- Claim C1: for every sequence of commands issued strictly
sequentially (each send awaiting its response before the next send),
the response queue is FIFO and the list of responses delivered to the
caller is, position by position, the server's response to the
corresponding command — the Kth response matches the Kth command, for
any number of commands including zero. -/
theorem claim_c1_sequential_fifo (serverResp : String → String) (cmds : List String) :
    runQueue [] (seqSchedule serverResp cmds) = some (cmds.map serverResp) := by
  induction cmds with
  | nil => rfl
  | cons c rest ih => simp [seqSchedule, runQueue, ih]

/-- Claim C2 counterexample: on a connected client whose response queue
is empty (a caller blocked in `response_queue.get()`), `close()` leaves
the blocked caller exactly as before — still blocked, not completed
with a connection-closed failure. -/
theorem claim_c2_counterexample :
    close ⟨.connected, true, []⟩ = .ok ⟨.closed, false, []⟩ ∧
    awaitOutcome ⟨.closed, false, []⟩ = .blocked ∧
    AwaitOutcome.blocked ≠ AwaitOutcome.failedClosed :=
  ⟨rfl, rfl, by decide⟩

/-- Claim C2 amended: `close()` never raises — a second close on an
already-closed connection is an accepted no-op — but it leaves the
response queue untouched and delivers no sentinel, so a caller blocked
awaiting a response observes after `close()` exactly what it observed
before; with an empty queue it stays blocked forever. -/
theorem claim_c2_amended (s : ClientState) :
    close s = .ok ⟨.closed, false, s.responseQueue⟩ ∧
    close ⟨.closed, false, s.responseQueue⟩ = .ok ⟨.closed, false, s.responseQueue⟩ ∧
    awaitOutcome ⟨.closed, false, s.responseQueue⟩ = awaitOutcome s :=
  ⟨rfl, rfl, rfl⟩

/-- Claim C3 counterexample: the line `Messages hi` does not begin with
the token `Message ` (trailing space), yet the classifier treats it as
a push notification: it is not routed to the response correlator (the
queue stays empty), refuting the claimed iff at this input. -/
theorem claim_c3_counterexample :
    pyStartsWith "Messages hi" "Message " = false ∧
    pyStartsWith "Messages hi" "Message" = true ∧
    (handleLine (fun _ => none) ⟨[], []⟩ "Messages hi").1.queue = [] :=
  ⟨by decide, by decide, rfl⟩

/-- Claim C3 amended: a framed line enters the push-notification branch
iff it begins with the literal token `Message` (case-sensitive, no
following space required); every other line is routed to the response
correlator stripped of surrounding whitespace, and the push branch
never touches the response queue. -/
theorem claim_c3_amended (jdec : String → Option PyVal) (st : EngineState) (line : String) :
    (handleLine jdec st line).1.queue =
      (if pyStartsWith line "Message" then st.queue
        else st.queue ++ [pyStrip line]) := by
  rw [handleLine_state]
  split <;> rfl

/-- Claim C4 counterexample: sending a command on a closed connection
fails with the socket-level `OSError`, which is not a NotConnected
error, refuting the claimed failure mode at this input. -/
theorem claim_c4_counterexample :
    sendCommand ⟨.closed, false, []⟩ "GET k" = .error .osError ∧
    PyErr.osError ≠ PyErr.notConnectedError :=
  ⟨rfl, by decide⟩

/-- Claim C4 amended: issuing a command in any state other than
Connected fails with the underlying socket `OSError`; `_send_command`
performs no connection-state check and the library defines no
NotConnected error kind. -/
theorem claim_c4_amended (s : ClientState) (cmd : String) (h : s.phase ≠ .connected) :
    sendCommand s cmd = .error .osError := by
  unfold sendCommand socketSend
  cases hp : s.phase with
  | connected => exact absurd hp h
  | disconnected => rfl
  | closed => rfl

/-- Claim C4 amended, witnessed on a never-connected client. -/
theorem claim_c4_amended_witness :
    sendCommand ⟨.disconnected, false, []⟩ "SET k 1" = .error .osError :=
  claim_c4_amended ⟨.disconnected, false, []⟩ "SET k 1" (by decide)

/-- Claim C5 counterexample: on a channel with two callbacks where the
first raises, dispatch invokes only the first — the second registered
callback is never invoked for that message, refuting the claim at this
input. -/
theorem claim_c5_counterexample :
    runCallbacks (.vInt 0) (.vStr "m") [⟨0, true⟩, ⟨1, false⟩] =
      [(⟨0, true⟩, .vStr "m")] ∧
    ((runCallbacks (.vInt 0) (.vStr "m") [⟨0, true⟩, ⟨1, false⟩]).map Prod.fst).contains
        ⟨1, false⟩ = false :=
  ⟨rfl, rfl⟩

/-- Claim C5 amended: a raising callback is isolated and logged — the
reader loop continues and a subsequent response line is still delivered
— but the raise aborts the per-message dispatch loop: callbacks
registered before the raising one run (in order, with the same
content), while the remaining callbacks for that message are not
invoked. -/
theorem claim_c5_amended (jdec : String → Option PyVal) (st : EngineState)
    (t c : PyVal) (pre post : List CB) (bad : CB)
    (hpre : ∀ cb ∈ pre, cb.raises = false) (hbad : bad.raises = true)
    (ht : isType2 t = false)
    (badLine respLine : String)
    (hr1 : pyStartsWith respLine "Message" = false) (hr2 : respLine ≠ "") :
    runCallbacks t c (pre ++ bad :: post) =
      pre.map (fun cb => (cb, c)) ++ [(bad, c)] ∧
    (readerLines jdec st [badLine, respLine]).1.queue =
      (processFramedLine jdec st badLine).1.queue ++ [pyStrip respLine] := by
  constructor
  · induction pre with
    | nil => simp [runCallbacks, ht, hbad]
    | cons cb rest ih =>
      have hcb : cb.raises = false := hpre cb (by simp)
      simp only [List.cons_append, runCallbacks, ht, Bool.false_eq_true, if_false, hcb,
        List.map_cons, List.append_eq]
      rw [ih (fun x hx => hpre x (by simp [hx]))]
  · have hshape : (readerLines jdec st [badLine, respLine]).1 =
        (processFramedLine jdec (processFramedLine jdec st badLine).1 respLine).1 := rfl
    rw [hshape]
    simp only [processFramedLine, if_neg hr2, handleLine_state]
    rw [if_neg (by simp [hr1])]

/-- Claim C5 amended, witnessed: first callback clean, second raises,
third never invoked; a response line after the failing push line is
still enqueued. -/
theorem claim_c5_amended_witness :
    runCallbacks (.vInt 0) (.vStr "x") ([⟨0, false⟩] ++ ⟨1, true⟩ :: [⟨2, false⟩]) =
      [⟨0, false⟩].map (fun cb => (cb, PyVal.vStr "x")) ++ [(⟨1, true⟩, .vStr "x")] ∧
    (readerLines (fun _ => none) ⟨[], []⟩ ["Message a b", "OK"]).1.queue =
      (processFramedLine (fun _ => none) ⟨[], []⟩ "Message a b").1.queue ++
        [pyStrip "OK"] :=
  claim_c5_amended (fun _ => none) ⟨[], []⟩ (.vInt 0) (.vStr "x") [⟨0, false⟩]
    [⟨2, false⟩] ⟨1, true⟩ (by decide) rfl rfl "Message a b" "OK" (by decide) (by decide)

/-- Claim C6 counterexample: the byte stream `0xC3 0xA9 0x0A` (the
two-byte UTF-8 character `U+00E9` then a newline) frames one line when
fed whole, but frames nothing when split in the middle of the
character: the chunkwise `.decode('utf-8')` raises and the reader loop
breaks, refuting chunk-size independence at this input. -/
theorem claim_c6_counterexample :
    [195] ++ [169, 10] = [195, 169, 10] ∧
    readerFrames [[195], [169, 10]] = [] ∧
    readerFrames [[195, 169, 10]] = [[233]] :=
  ⟨rfl, rfl, rfl⟩

/-- Claim C6 amended: framing is chunk-size independent for every
fragmentation whose fragments are nonempty and individually valid
UTF-8 (splits on character boundaries); a fragment ending inside a
multi-byte character instead raises a decode error that terminates the
reader. -/
theorem claim_c6_amended (chunks : List (List Nat))
    (h : ∀ c ∈ chunks, c ≠ [] ∧ (utf8Decode c).isSome) :
    readerFrames chunks = readerFrames [chunks.flatten] := by
  cases chunks with
  | nil => rfl
  | cons c0 rest =>
    have hval : ∀ c ∈ c0 :: rest, c ≠ [] ∧ ∃ d, utf8Decode c = some d := by
      intro c hc
      obtain ⟨hne, hs⟩ := h c hc
      exact ⟨hne, Option.isSome_iff_exists.mp hs⟩
    obtain ⟨dAll, hdAll⟩ := utf8Decode_flatten (c0 :: rest) (fun c hc => (hval c hc).2)
    have hbuf : (10 : Nat) ∉ ([] : List Nat) := by simp
    have hFne : (c0 :: rest).flatten ≠ [] := by
      have h0 := (hval c0 (by simp)).1
      simp only [List.flatten_cons]
      intro hEq
      exact h0 (List.append_eq_nil.mp hEq).1
    simp only [readerFrames]
    rw [readerRun_valid (c0 :: rest) [] dAll hbuf hval hdAll]
    simp only [readerRun, if_neg hFne, hdAll]
    simp [readerRun]

/-- Claim C6 amended, witnessed on the stream `H\ni\n` split at a
character boundary. -/
theorem claim_c6_amended_witness :
    readerFrames [[72, 10], [105, 10]] = readerFrames [[72, 10, 105, 10]] := by
  have h := claim_c6_amended [[72, 10], [105, 10]] (by decide)
  simpa using h

/-- Claim C7 counterexample: the non-push line `  OK` carries leading
whitespace and no trailing whitespace; the engine enqueues `OK` — it
strips the leading whitespace too, refuting the claim that leading
whitespace is preserved. -/
theorem claim_c7_counterexample :
    (processFramedLine (fun _ => none) ⟨[], []⟩ "  OK").1.queue = ["OK"] ∧
    pyStripRight "  OK" = "  OK" ∧
    ("OK" : String) ≠ "  OK" :=
  ⟨rfl, rfl, by decide⟩

/-- Claim C7 amended: an empty framed line is silently dropped, and
every nonempty non-push line is delivered to the response correlator
stripped of both leading and trailing whitespace. -/
theorem claim_c7_amended (jdec : String → Option PyVal) (st : EngineState) (line : String)
    (h1 : line ≠ "") (h2 : pyStartsWith line "Message" = false) :
    processFramedLine jdec st "" = (st, []) ∧
    (processFramedLine jdec st line).1.queue = st.queue ++ [pyStrip line] := by
  refine ⟨rfl, ?_⟩
  simp only [processFramedLine, if_neg h1, handleLine_state]
  rw [if_neg (by simp [h2])]

/-- Claim C7 amended, witnessed on the line `  B  ` with queue `[A]`. -/
theorem claim_c7_amended_witness :
    processFramedLine (fun _ => none) ⟨[], ["A"]⟩ "" = (⟨[], ["A"]⟩, []) ∧
    (processFramedLine (fun _ => none) ⟨[], ["A"]⟩ "  B  ").1.queue =
      ["A"] ++ [pyStrip "  B  "] :=
  claim_c7_amended (fun _ => none) ⟨[], ["A"]⟩ "  B  " (by decide) (by decide)

/-- Claim C8: when no callback raises, every callback registered for
the channel is invoked, in registration order, and all invocations for
one message receive the same content; for a binary envelope
(discriminant Type = 2) whose content is a JSON array of byte
integers, the array is reassembled into the byte sequence before every
callback invocation, so every callback receives those bytes. -/
theorem claim_c8_dispatch (cbs : List CB) (bs : List Nat)
    (hcb : ∀ cb ∈ cbs, cb.raises = false) (hbs : ∀ x ∈ bs, x < 256) :
    runCallbacks (.vInt 2) (.vList (bs.map (fun (n : Nat) => PyVal.vInt (n : Int)))) cbs =
      cbs.map (fun cb => (cb, PyVal.vBytes bs)) ∧
    (∀ (t content : PyVal), isType2 t = false →
      runCallbacks t content cbs = cbs.map (fun cb => (cb, content))) := by
  constructor
  · exact runCallbacks_type2_fix (.vInt 2) (.vBytes bs) rfl rfl cbs
      (.vList (bs.map (fun (n : Nat) => PyVal.vInt (n : Int))))
      (pyBytes_byteList bs hbs) hcb
  · intro t content ht
    exact runCallbacks_noRaise_plain t content ht cbs hcb

/-- Claim C8, witnessed on the spec's binary round-trip example
`[0x42, 0x69, 0x6E]` with two callbacks. -/
theorem claim_c8_dispatch_witness :
    runCallbacks (.vInt 2) (.vList [.vInt 66, .vInt 105, .vInt 110])
        [⟨0, false⟩, ⟨1, false⟩] =
      [(⟨0, false⟩, PyVal.vBytes [66, 105, 110]),
        (⟨1, false⟩, PyVal.vBytes [66, 105, 110])] := by
  have h := (claim_c8_dispatch [⟨0, false⟩, ⟨1, false⟩] [66, 105, 110]
    (by decide) (by decide)).1
  simpa using h

/-- Claim C9: `subscribe` appends the callback to the channel's
registry (creating the entry when absent); the `SUBSCRIBE` command is
issued from the already-registered state, the call returns `true` iff
the response equals `OK`, and the registration is never rolled back:
whatever the response, the callback is in the registry and a future
push dispatch on the channel (with no raising callbacks) invokes it. -/
theorem claim_c9_subscribe (subs : List (String × List CB)) (ch : String) (cb : CB)
    (resp : String) :
    (subscribe subs ch cb resp).1 = registerCallback subs ch cb ∧
    lookupSubs (subscribe subs ch cb resp).1 ch =
      some ((lookupSubs subs ch).getD [] ++ [cb]) ∧
    (subscribe subs ch cb resp).2.1 = "SUBSCRIBE " ++ ch ∧
    ((subscribe subs ch cb resp).2.2 = true ↔ resp = "OK") ∧
    (∀ (t content : PyVal) (cbs : List CB), isType2 t = false →
      lookupSubs (subscribe subs ch cb resp).1 ch = some cbs →
      (∀ x ∈ cbs, x.raises = false) →
      (cb, content) ∈ runCallbacks t content cbs) := by
  refine ⟨rfl, lookup_registerCallback subs ch cb, rfl, ?_, ?_⟩
  · simp [subscribe, beq_iff_eq]
  · intro t content cbs ht hlk hnr
    rw [runCallbacks_noRaise_plain t content ht cbs hnr]
    have hmem : cb ∈ cbs := by
      have hreg := lookup_registerCallback subs ch cb
      rw [show (subscribe subs ch cb resp).1 = registerCallback subs ch cb from rfl,
        hreg] at hlk
      injection hlk with hlk
      rw [← hlk]
      simp
    exact List.mem_map.mpr ⟨cb, hmem, rfl⟩

/-- Claim C9, witnessed: a fresh registry, the server answering `ERR`
(subscribe returns failure), yet the callback is registered and a later
plain push on the channel invokes it. -/
theorem claim_c9_subscribe_witness :
    (subscribe [] "news" ⟨7, false⟩ "ERR").1 = [("news", [⟨7, false⟩])] ∧
    (subscribe [] "news" ⟨7, false⟩ "ERR").2.2 = false ∧
    (⟨7, false⟩, PyVal.vStr "m") ∈
      runCallbacks (.vInt 0) (.vStr "m") [⟨7, false⟩] := by
  have h := claim_c9_subscribe [] "news" ⟨7, false⟩ "ERR"
  refine ⟨rfl, ?_, ?_⟩
  · cases hb : (subscribe [] "news" ⟨7, false⟩ "ERR").2.2
    · rfl
    · exact absurd (h.2.2.2.1.mp hb) (by decide)
  · exact h.2.2.2.2 (.vInt 0) (.vStr "m") [⟨7, false⟩] rfl rfl (by decide)

/-- Claim C10: `set` wraps a string value in double quotes
(`SET key "v"`), renders every non-string value with its plain `str()`
form unquoted, and returns `true` iff the response line equals `OK`. -/
theorem claim_c10_set (key : String) (value : PyVal) (resp : String) :
    (∀ s, value = .vStr s →
      (setOp key value resp).1 = "SET " ++ key ++ " " ++ ("\"" ++ s ++ "\"")) ∧
    (isStr value = false →
      (setOp key value resp).1 = "SET " ++ key ++ " " ++ pyStrOf value) ∧
    ((setOp key value resp).2 = true ↔ resp = "OK") := by
  refine ⟨?_, ?_, ?_⟩
  · intro s hs
    subst hs
    rfl
  · intro hns
    cases value <;> simp_all [setOp, isStr]
  · simp [setOp, beq_iff_eq]

/-- Claim C10, witnessed: a string value is quoted, an integer value is
rendered bare, and the result reflects the `OK` comparison. -/
theorem claim_c10_set_witness :
    (setOp "k" (.vStr "v") "OK").1 = "SET k \"v\"" ∧
    (setOp "k" (.vInt 5) "ERR").1 = "SET k 5" ∧
    (setOp "k" (.vInt 5) "OK").2 = true ∧
    (setOp "k" (.vInt 5) "ERR").2 = false := by
  have h1 := (claim_c10_set "k" (.vStr "v") "OK").1 "v" rfl
  have h2 := (claim_c10_set "k" (.vInt 5) "ERR").2.1 rfl
  have h3 := (claim_c10_set "k" (.vInt 5) "OK").2.2.mpr rfl
  refine ⟨by rw [h1]; decide, by rw [h2]; decide, h3, ?_⟩
  cases hb : (setOp "k" (.vInt 5) "ERR").2
  · rfl
  · exact absurd ((claim_c10_set "k" (.vInt 5) "ERR").2.2.mp hb) (by decide)

end DushyRedis
